import Mathlib

/-!
Verification of the Hog game simulator (`hog.py`).

The Python source is embedded shallowly:

* a dice source is modelled as an infinite stream `Nat → Nat` of outcomes
  together with an explicit cursor (the index of the next call); calling the
  dice once reads the stream at the cursor and advances it by one, so the
  number of calls a function makes is visible as the cursor displacement;
* roll counts are `Int` (Python integers); scores and outcomes are `Nat`
  (scores start at 0 and only grow, and the dice-source contract promises
  positive integer outcomes);
* Python `assert` failures are modelled by returning `none`;
* the `while` loop of `play` is modelled with explicit fuel: `none` is
  returned when the fuel runs out while the loop guard still holds, so
  "`play` terminates" becomes "some fuel makes the loop return `some`";
* Python float averages (`total / num_samples`) are modelled in `ℚ`.
-/

namespace Hog

/-- A dice source, viewed as the stream of outcomes of its successive calls. -/
abbrev Dice := Nat → Nat

/-- A strategy: takes the two scores, returns a number of dice (a Python int). -/
abbrev Strategy := Nat → Nat → Int

/-- `GOAL_SCORE = 100` from hog.py line 6. -/
def GOAL_SCORE : Nat := 100

/-- The `while` loop of `roll_dice` (hog.py lines 25–33): repeatedly read the
dice at the cursor, record whether a 1 was seen, accumulate the total, and at
the end return 1 on pig-out, else the total, together with the new cursor. -/
def rollDiceGo (dice : Dice) : Nat → Nat → Nat → Bool → Nat × Nat
  | 0, k, total, pig_out => (if pig_out then 1 else total, k)
  | n + 1, k, total, pig_out =>
      rollDiceGo dice n (k + 1) (total + dice k) (pig_out || (dice k == 1))

/-- `roll_dice` (hog.py lines 14–33).  The asserts demand an integer
`num_rolls > 0`; a violation is `none`.  Returns the turn result and the new
dice cursor. -/
def roll_dice (num_rolls : Int) (dice : Dice) (k : Nat) : Option (Nat × Nat) :=
  if 0 < num_rolls then some (rollDiceGo dice num_rolls.toNat k 0 false) else none

/-- `free_bacon` (hog.py lines 51–52): `max(score // 10, score % 10) + 1`. -/
def free_bacon (score : Nat) : Nat :=
  max (score / 10) (score % 10) + 1

/-- `take_turn` (hog.py lines 35–49).  The asserts demand an integer
`0 ≤ num_rolls ≤ 10` and `opponent_score < 100`; a violation is `none`. -/
def take_turn (num_rolls : Int) (opponent_score : Nat) (dice : Dice) (k : Nat) :
    Option (Nat × Nat) :=
  if 0 ≤ num_rolls ∧ num_rolls ≤ 10 ∧ opponent_score < 100 then
    if num_rolls = 0 then some (free_bacon opponent_score, k)
    else roll_dice num_rolls dice k
  else none

/-- The two dice variants a game can select between (`four_sided`,
`six_sided` from dice.py; only their identity matters to `select_dice`). -/
inductive DiceKind where
  | four_sided
  | six_sided
deriving DecidableEq, Repr

/-- `select_dice` (hog.py lines 56–63). -/
def select_dice (score opponent_score : Nat) : DiceKind :=
  if (opponent_score + score) % 7 = 0 then DiceKind.four_sided else DiceKind.six_sided

/-- `other` (hog.py lines 65–73): the other player, for `who` numbered 0 or 1. -/
def other (who : Nat) : Nat := 1 - who

/-- The sum of the next `n` dice outcomes starting at cursor `k`. -/
def diceSum (dice : Dice) (k : Nat) : Nat → Nat
  | 0 => 0
  | n + 1 => dice k + diceSum dice (k + 1) n

/-- Whether any of the next `n` dice outcomes starting at cursor `k` is a 1. -/
def hasPigOut (dice : Dice) (k : Nat) : Nat → Bool
  | 0 => false
  | n + 1 => (dice k == 1) || hasPigOut dice (k + 1) n

/-- A strategy whose return value is always an integer in [0, 10]. -/
def ValidStrategy (s : Strategy) : Prop :=
  ∀ a b, 0 ≤ s a b ∧ s a b ≤ 10

/-- A dice source whose outcomes are always positive integers. -/
def PositiveDice (d : Dice) : Prop :=
  ∀ n, 1 ≤ d n

/-- The rotating loop state of `play` (hog.py lines 87–102): `who` is the
player about to take a turn, `score` / `opponent_score` are that player's and
the other player's totals, and `k4` / `k6` are the cursors of the four-sided
and six-sided dice sources. -/
structure PlayState where
  who : Nat
  score : Nat
  opponent_score : Nat
  k4 : Nat
  k6 : Nat
deriving DecidableEq, Repr

/-- Lines 99–102 of hog.py, after the turn delta has been computed: add the
delta, apply the conditional doubling swap, apply the unconditional
perspective swap, and flip `who`.  `k4` / `k6` are the updated cursors. -/
def finishTurn (st : PlayState) (delta k4 k6 : Nat) : PlayState :=
  let score := st.score + delta
  let opponent_score := st.opponent_score
  let p :=
    if score = 2 * opponent_score ∨ opponent_score = 2 * score then (opponent_score, score)
    else (score, opponent_score)
  let q := (p.2, p.1)
  { who := other st.who, score := q.1, opponent_score := q.2, k4 := k4, k6 := k6 }

/-- One iteration of the `while` body of `play` (hog.py lines 90–102):
choose the strategy by `who`, compute the roll count from the pre-turn
scores, select the dice variant from the pre-turn scores, take the turn
(consuming from the selected dice source), then `finishTurn`. -/
def playStep (strategy0 strategy1 : Strategy) (d4 d6 : Dice) (st : PlayState) :
    Option PlayState :=
  let func_strategy := if st.who = 0 then strategy0 else strategy1
  let num_rolls := func_strategy st.score st.opponent_score
  match select_dice st.score st.opponent_score with
  | DiceKind.four_sided =>
      match take_turn num_rolls st.opponent_score d4 st.k4 with
      | none => none
      | some (delta, k4) => some (finishTurn st delta k4 st.k6)
  | DiceKind.six_sided =>
      match take_turn num_rolls st.opponent_score d6 st.k6 with
      | none => none
      | some (delta, k6) => some (finishTurn st delta st.k4 k6)

/-- The `while` loop of `play` (hog.py line 89), with explicit fuel: the
guard `max score opponent_score < goal` is evaluated at the top of each
iteration; `none` means an assertion failed or the fuel ran out with the
guard still true. -/
def playLoop (strategy0 strategy1 : Strategy) (goal : Nat) (d4 d6 : Dice) :
    Nat → PlayState → Option PlayState
  | 0, st => if max st.score st.opponent_score < goal then none else some st
  | fuel + 1, st =>
      if max st.score st.opponent_score < goal then
        match playStep strategy0 strategy1 d4 d6 st with
        | none => none
        | some st' => playLoop strategy0 strategy1 goal d4 d6 fuel st'
      else some st

/-- Lines 104–106 of hog.py: reconstruct (player 0's score, player 1's
score) from the rotating pair and the final `who`. -/
def playResult (st : PlayState) : Nat × Nat :=
  if st.who = 0 then (st.score, st.opponent_score) else (st.opponent_score, st.score)

/-- `play` (hog.py lines 75–106): run the loop from `who = 0`,
`score = opponent_score = 0` and the given dice cursors, and reconstruct the
final (player 0, player 1) score pair.  Also returns the final cursors. -/
def playFrom (strategy0 strategy1 : Strategy) (goal : Nat) (d4 d6 : Dice)
    (k4 k6 fuel : Nat) : Option ((Nat × Nat) × Nat × Nat) :=
  (playLoop strategy0 strategy1 goal d4 d6 fuel
      { who := 0, score := 0, opponent_score := 0, k4 := k4, k6 := k6 }).map
    fun st => (playResult st, st.k4, st.k6)

/-- `play` with fresh dice sources (cursors 0), forgetting the cursors. -/
def play (strategy0 strategy1 : Strategy) (goal : Nat) (d4 d6 : Dice) (fuel : Nat) :
    Option (Nat × Nat) :=
  (playFrom strategy0 strategy1 goal d4 d6 0 0 fuel).map fun r => r.1

/-- The non-rotating game state used to state what `play` computes in terms
of the two players' own scores: `score0` and `score1` are player 0's and
player 1's totals and `who` is the player about to move. -/
structure SpecState where
  score0 : Nat
  score1 : Nat
  who : Nat
  k4 : Nat
  k6 : Nat
deriving DecidableEq, Repr

/-- One game turn as the spec describes it, phrased directly on the two
players' scores: the active player's strategy computes a roll count from the
pre-turn (current, opponent) scores, the dice variant is chosen by
`select_dice` on the same pre-turn scores, the `take_turn` delta is added to
the current player's score, the conditional doubling swap is applied, and
`who` flips. -/
def specTurn (strategy0 strategy1 : Strategy) (d4 d6 : Dice) (a : SpecState) :
    Option SpecState :=
  let current := if a.who = 0 then a.score0 else a.score1
  let opponent := if a.who = 0 then a.score1 else a.score0
  let num_rolls := (if a.who = 0 then strategy0 else strategy1) current opponent
  let rolled :=
    match select_dice current opponent with
    | DiceKind.four_sided => (take_turn num_rolls opponent d4 a.k4).map fun r => (r.1, r.2, a.k6)
    | DiceKind.six_sided => (take_turn num_rolls opponent d6 a.k6).map fun r => (r.1, a.k4, r.2)
  match rolled with
  | none => none
  | some (delta, k4, k6) =>
      let afterAdd := current + delta
      let p :=
        if afterAdd = 2 * opponent ∨ opponent = 2 * afterAdd then (opponent, afterAdd)
        else (afterAdd, opponent)
      let s0 := if a.who = 0 then p.1 else p.2
      let s1 := if a.who = 0 then p.2 else p.1
      some { score0 := s0, score1 := s1, who := other a.who, k4 := k4, k6 := k6 }

/-- The game loop on the non-rotating state, same guard and fuel policy as
`playLoop`. -/
def specLoop (strategy0 strategy1 : Strategy) (goal : Nat) (d4 d6 : Dice) :
    Nat → SpecState → Option SpecState
  | 0, a => if max a.score0 a.score1 < goal then none else some a
  | fuel + 1, a =>
      if max a.score0 a.score1 < goal then
        match specTurn strategy0 strategy1 d4 d6 a with
        | none => none
        | some a' => specLoop strategy0 strategy1 goal d4 d6 fuel a'
      else some a

/-- The whole game on the non-rotating state: the result really is
(player 0's final score, player 1's final score). -/
def specPlay (strategy0 strategy1 : Strategy) (goal : Nat) (d4 d6 : Dice) (fuel : Nat) :
    Option (Nat × Nat) :=
  (specLoop strategy0 strategy1 goal d4 d6 fuel
      { score0 := 0, score1 := 0, who := 0, k4 := 0, k6 := 0 }).map
    fun a => (a.score0, a.score1)

/-- The simulation relation between the rotating `play` state and the
non-rotating state: same `who` and cursors, and the rotating pair holds
(current player's score, other player's score). -/
def Sim (st : PlayState) (a : SpecState) : Prop :=
  st.who = a.who ∧ st.k4 = a.k4 ∧ st.k6 = a.k6 ∧
    ((a.who = 0 ∧ st.score = a.score0 ∧ st.opponent_score = a.score1) ∨
      (a.who = 1 ∧ st.score = a.score1 ∧ st.opponent_score = a.score0))

/-- Reconstruct the rotating `play` state from the non-rotating state: the
rotating pair holds (mover's score, other player's score). -/
def stOf (a : SpecState) : PlayState :=
  { who := a.who,
    score := if a.who = 0 then a.score0 else a.score1,
    opponent_score := if a.who = 0 then a.score1 else a.score0,
    k4 := a.k4,
    k6 := a.k6 }

/-- `winner` (hog.py lines 193–200): play one game with the default goal
`GOAL_SCORE`; return 0 if player 0's final score is strictly greater, else 1.
The dice cursors are threaded so that repeated games consume successive
outcomes of the shared dice sources. -/
def winner (strategy0 strategy1 : Strategy) (d4 d6 : Dice) (k4 k6 fuel : Nat) :
    Option (Nat × Nat × Nat) :=
  (playFrom strategy0 strategy1 GOAL_SCORE d4 d6 k4 k6 fuel).map
    fun r => (if r.1.2 < r.1.1 then 0 else 1, r.2)

/-- The sampling loop of `make_averaged` (hog.py lines 154–158) specialised
to `fn = winner`: call `winner` `n` more times with the same strategy
arguments, threading the dice cursors, and accumulate the total. -/
def averagedWinnerGo (strategy0 strategy1 : Strategy) (d4 d6 : Dice) (fuel : Nat) :
    Nat → Nat → Nat → Nat → Option (Nat × Nat × Nat)
  | 0, k4, k6, total => some (total, k4, k6)
  | n + 1, k4, k6, total =>
      match winner strategy0 strategy1 d4 d6 k4 k6 fuel with
      | none => none
      | some (w, k4', k6') => averagedWinnerGo strategy0 strategy1 d4 d6 fuel n k4' k6' (total + w)

/-- `make_averaged(winner)(strategy0, strategy1)` (hog.py lines 135–159):
the mean of `num_samples` outcomes of `winner`, as a rational. -/
def make_averaged_winner (num_samples : Nat) (strategy0 strategy1 : Strategy)
    (d4 d6 : Dice) (k4 k6 fuel : Nat) : Option (ℚ × Nat × Nat) :=
  match averagedWinnerGo strategy0 strategy1 d4 d6 fuel num_samples k4 k6 0 with
  | none => none
  | some (total, k4', k6') => some ((total : ℚ) / (num_samples : ℚ), k4', k6')

/-- `average_win_rate` (hog.py lines 202–206): the mean of
`1 - make_averaged(winner)(strategy, baseline)` and
`make_averaged(winner)(baseline, strategy)`, each over 1000 games, the
second batch continuing from the dice cursors left by the first. -/
def average_win_rate (strategy baseline : Strategy) (d4 d6 : Dice) (fuel : Nat) :
    Option ℚ :=
  match make_averaged_winner 1000 strategy baseline d4 d6 0 0 fuel with
  | none => none
  | some (r0, k4, k6) =>
      match make_averaged_winner 1000 baseline strategy d4 d6 k4 k6 fuel with
      | none => none
      | some (r1, _, _) => some (((1 - r0) + r1) / 2)

/-- The sampling loop of `make_averaged` specialised to `fn = roll_dice`
with a fixed roll count, threading the dice cursor. -/
def averagedRollDiceGo (dice : Dice) (num_rolls : Int) :
    Nat → Nat → Nat → Option (Nat × Nat)
  | 0, k, total => some (total, k)
  | s + 1, k, total =>
      match roll_dice num_rolls dice k with
      | none => none
      | some (v, k') => averagedRollDiceGo dice num_rolls s k' (total + v)

/-- `make_averaged(roll_dice)(num_rolls, dice)`: the mean of `num_samples`
outcomes of `roll_dice`, as a rational, plus the advanced cursor. -/
def make_averaged_roll_dice (num_samples : Nat) (num_rolls : Int) (dice : Dice)
    (k : Nat) : Option (ℚ × Nat) :=
  match averagedRollDiceGo dice num_rolls num_samples k 0 with
  | none => none
  | some (total, k') => some ((total : ℚ) / (num_samples : ℚ), k')

/-- The `while` loop of `max_scoring_num_rolls` (hog.py lines 181–190):
`cnt` counts the remaining roll counts to try (the source iterates `roll`
from 1 to 10), carrying the running best `(max_num_roll, best_value)` pair;
a new roll count takes over only when its average is strictly greater. -/
def msnrGo (dice : Dice) : Nat → Nat → Nat → Nat → ℚ → Option Nat
  | 0, _, _, max_num_roll, _ => some max_num_roll
  | cnt + 1, roll, k, max_num_roll, best_value =>
      match make_averaged_roll_dice 1000 (roll : Int) dice k with
      | none => none
      | some (ave_value, k') =>
          if best_value < ave_value then msnrGo dice cnt (roll + 1) k' roll ave_value
          else msnrGo dice cnt (roll + 1) k' max_num_roll best_value

/-- `max_scoring_num_rolls` (hog.py lines 161–190): try roll counts 1–10,
1000 samples each, starting from `max_num_roll = 0`, `best_value = 0`. -/
def max_scoring_num_rolls (dice : Dice) : Option Nat :=
  msnrGo dice 10 1 0 0 0

/-- The list of the ten averages `max_scoring_num_rolls` inspects, in order,
computed by the same cursor threading. -/
def msnrAveragesGo (dice : Dice) : Nat → Nat → Nat → List ℚ
  | 0, _, _ => []
  | cnt + 1, roll, k =>
      match make_averaged_roll_dice 1000 (roll : Int) dice k with
      | none => []
      | some (ave_value, k') => ave_value :: msnrAveragesGo dice cnt (roll + 1) k'

/-- The ten turn-score averages for roll counts 1–10, in order. -/
def msnrAverages (dice : Dice) : List ℚ :=
  msnrAveragesGo dice 10 1 0

/-- Concrete strategy rolling 2 dice every turn. -/
def cexS0 : Strategy := fun _ _ => 2

/-- Concrete strategy always taking free bacon. -/
def cexS1 : Strategy := fun _ _ => 0

/-- A dice source that always shows 50 (a positive integer). -/
def cexD4 : Dice := fun _ => 50

/-- A dice source that always shows 2. -/
def cexD6 : Dice := fun _ => 2

/-- The state after one turn of the goal-101 game used for C2: player 0
rolled two 50s, scored 100, and handed the turn to player 1. -/
def cexSt1 : PlayState :=
  { who := 1, score := 0, opponent_score := 100, k4 := 2, k6 := 0 }

/-- The initial `play` state with fresh dice cursors. -/
def stepInput : PlayState :=
  { who := 0, score := 0, opponent_score := 0, k4 := 0, k6 := 0 }

/-- The state after one turn from `stepInput` when both players always take
free bacon: the mover gains `free_bacon 0 = 1` and the pair rotates. -/
def stepOutput : PlayState :=
  { who := 1, score := 0, opponent_score := 1, k4 := 0, k6 := 0 }

lemma rollDiceGo_eq (dice : Dice) :
    ∀ (n k total : Nat) (pig_out : Bool),
      rollDiceGo dice n k total pig_out =
        (if pig_out || hasPigOut dice k n then 1 else total + diceSum dice k n, k + n) := by
  intro n
  induction n with
  | zero =>
      intro k total pig_out
      simp [rollDiceGo, hasPigOut, diceSum]
  | succ n ih =>
      intro k total pig_out
      rw [rollDiceGo, ih]
      have harr : k + 1 + n = k + (n + 1) := by omega
      rw [harr]
      have hor : ((pig_out || (dice k == 1)) || hasPigOut dice (k + 1) n) =
          (pig_out || hasPigOut dice k (n + 1)) := by
        simp [hasPigOut, Bool.or_assoc]
      rw [hor]
      have hsum : total + dice k + diceSum dice (k + 1) n = total + diceSum dice k (n + 1) := by
        simp [diceSum]
        omega
      rw [hsum]

lemma diceSum_le (dice : Dice) (hd : PositiveDice dice) :
    ∀ (n k : Nat), n ≤ diceSum dice k n := by
  intro n
  induction n with
  | zero => intro k; simp [diceSum]
  | succ n ih =>
      intro k
      have := hd k
      have := ih (k + 1)
      simp only [diceSum]
      omega

lemma roll_dice_pos (num_rolls : Int) (dice : Dice) (k : Nat)
    (h : 1 ≤ num_rolls) (hd : PositiveDice dice) :
    ∃ v, roll_dice num_rolls dice k = some (v, k + num_rolls.toNat) ∧ 1 ≤ v := by
  unfold roll_dice
  rw [if_pos (by omega), rollDiceGo_eq]
  refine ⟨_, rfl, ?_⟩
  have hn : 1 ≤ num_rolls.toNat := by omega
  have := diceSum_le dice hd num_rolls.toNat k
  simp only [Bool.false_or]
  split
  · exact le_refl 1
  · omega

lemma free_bacon_pos (score : Nat) : 1 ≤ free_bacon score := by
  simp [free_bacon]

lemma take_turn_pos (num_rolls : Int) (opponent_score : Nat) (dice : Dice) (k : Nat)
    (h0 : 0 ≤ num_rolls) (h10 : num_rolls ≤ 10) (hop : opponent_score < 100)
    (hd : PositiveDice dice) :
    ∃ v k', take_turn num_rolls opponent_score dice k = some (v, k') ∧ 1 ≤ v := by
  unfold take_turn
  rw [if_pos ⟨h0, h10, hop⟩]
  by_cases hz : num_rolls = 0
  · rw [if_pos hz]
    exact ⟨_, k, rfl, free_bacon_pos _⟩
  · rw [if_neg hz]
    obtain ⟨v, hv, h1⟩ := roll_dice_pos num_rolls dice k (by omega) hd
    exact ⟨v, _, hv, h1⟩

/-- C3: for every integer `num_rolls ≥ 1`, `roll_dice` advances the dice
cursor by exactly `num_rolls` (it calls the dice exactly that many times,
with no short-circuit), and returns 1 if any of those outcomes is a 1, else
the sum of all of them. -/
theorem C3_roll_dice_exact_calls (num_rolls : Int) (dice : Dice) (k : Nat)
    (h : 1 ≤ num_rolls) :
    roll_dice num_rolls dice k =
      some (if hasPigOut dice k num_rolls.toNat then 1
        else diceSum dice k num_rolls.toNat, k + num_rolls.toNat) := by
  unfold roll_dice
  rw [if_pos (by omega), rollDiceGo_eq]
  simp

/-- Witness for C3 at `num_rolls = 3`, `dice = fun n => n + 1`, cursor 0. -/
theorem C3_roll_dice_exact_calls_witness :
    (1 : Int) ≤ 3 ∧
      roll_dice 3 (fun n => n + 1) 0 =
        some (if hasPigOut (fun n => n + 1) 0 (Int.toNat 3) then 1
          else diceSum (fun n => n + 1) 0 (Int.toNat 3), 0 + (Int.toNat 3)) :=
  ⟨by decide, C3_roll_dice_exact_calls 3 (fun n => n + 1) 0 (by decide)⟩

/-- C4: with `opponent_score < 100`, `take_turn 0` consumes no dice
outcomes (the cursor is unchanged) and returns `free_bacon opponent_score`,
which equals `1 + max (opponent_score / 10) (opponent_score % 10)`; in
particular `free_bacon 0 = 1`, `free_bacon 9 = 10`, `free_bacon 99 = 10`. -/
theorem C4_take_turn_zero_free_bacon (opponent_score : Nat) (dice : Dice) (k : Nat)
    (h : opponent_score < 100) :
    take_turn 0 opponent_score dice k = some (free_bacon opponent_score, k) ∧
      free_bacon opponent_score = 1 + max (opponent_score / 10) (opponent_score % 10) ∧
      free_bacon 0 = 1 ∧ free_bacon 9 = 10 ∧ free_bacon 99 = 10 := by
  refine ⟨?_, ?_, by decide, by decide, by decide⟩
  · unfold take_turn
    rw [if_pos ⟨le_refl 0, by omega, h⟩, if_pos rfl]
  · simp [free_bacon, Nat.add_comm]

/-- Witness for C4 at `opponent_score = 42`. -/
theorem C4_take_turn_zero_free_bacon_witness :
    42 < 100 ∧
      (take_turn 0 42 (fun _ => 6) 0 = some (free_bacon 42, 0) ∧
        free_bacon 42 = 1 + max (42 / 10) (42 % 10) ∧
        free_bacon 0 = 1 ∧ free_bacon 9 = 10 ∧ free_bacon 99 = 10) :=
  ⟨by decide, C4_take_turn_zero_free_bacon 42 (fun _ => 6) 0 (by decide)⟩

/-- C8: precondition violations abort the operation (`none`) and nothing is
clamped: `roll_dice` fails exactly when `num_rolls < 1`, and `take_turn`
fails exactly when `num_rolls < 0`, `num_rolls > 10`, or the opponent score
is already at or past 100. -/
theorem C8_preconditions_fail_fast :
    (∀ (num_rolls : Int) (dice : Dice) (k : Nat), num_rolls < 1 →
      roll_dice num_rolls dice k = none) ∧
    (∀ (num_rolls : Int) (dice : Dice) (k : Nat), 1 ≤ num_rolls →
      ∃ r, roll_dice num_rolls dice k = some r) ∧
    (∀ (num_rolls : Int) (opponent_score : Nat) (dice : Dice) (k : Nat),
      (num_rolls < 0 ∨ 10 < num_rolls ∨ 100 ≤ opponent_score) →
      take_turn num_rolls opponent_score dice k = none) ∧
    (∀ (num_rolls : Int) (opponent_score : Nat) (dice : Dice) (k : Nat),
      0 ≤ num_rolls → num_rolls ≤ 10 → opponent_score < 100 →
      ∃ r, take_turn num_rolls opponent_score dice k = some r) := by
  refine ⟨?_, ?_, ?_, ?_⟩
  · intro num_rolls dice k h
    unfold roll_dice
    rw [if_neg (by omega)]
  · intro num_rolls dice k h
    unfold roll_dice
    rw [if_pos (by omega)]
    exact ⟨_, rfl⟩
  · intro num_rolls opponent_score dice k h
    unfold take_turn
    rw [if_neg (by omega)]
  · intro num_rolls opponent_score dice k h0 h10 hop
    unfold take_turn
    rw [if_pos ⟨h0, h10, hop⟩]
    by_cases hz : num_rolls = 0
    · rw [if_pos hz]; exact ⟨_, rfl⟩
    · rw [if_neg hz]
      unfold roll_dice
      rw [if_pos (by omega)]
      exact ⟨_, rfl⟩

/-- Witness for C8 at concrete inputs on each branch. -/
theorem C8_preconditions_fail_fast_witness :
    roll_dice 0 (fun _ => 6) 0 = none ∧
      (∃ r, roll_dice 2 (fun _ => 6) 0 = some r) ∧
      take_turn (-1) 0 (fun _ => 6) 0 = none ∧
      take_turn 11 0 (fun _ => 6) 0 = none ∧
      take_turn 0 100 (fun _ => 6) 0 = none ∧
      ∃ r, take_turn 5 99 (fun _ => 6) 0 = some r :=
  ⟨C8_preconditions_fail_fast.1 0 (fun _ => 6) 0 (by decide),
    C8_preconditions_fail_fast.2.1 2 (fun _ => 6) 0 (by decide),
    C8_preconditions_fail_fast.2.2.1 (-1) 0 (fun _ => 6) 0 (Or.inl (by decide)),
    C8_preconditions_fail_fast.2.2.1 11 0 (fun _ => 6) 0 (Or.inr (Or.inl (by decide))),
    C8_preconditions_fail_fast.2.2.1 0 100 (fun _ => 6) 0 (Or.inr (Or.inr (by decide))),
    C8_preconditions_fail_fast.2.2.2 5 99 (fun _ => 6) 0 (by decide) (by decide) (by decide)⟩

/-- C9: with a valid roll count, an opponent score below 100 and a dice
source returning only positive integers, `take_turn` succeeds and its delta
is at least 1, so the current player's score strictly increases before any
swap. -/
theorem C9_take_turn_at_least_one (num_rolls : Int) (opponent_score : Nat)
    (dice : Dice) (k : Nat) (h0 : 0 ≤ num_rolls) (h10 : num_rolls ≤ 10)
    (hop : opponent_score < 100) (hd : PositiveDice dice) :
    ∃ delta k', take_turn num_rolls opponent_score dice k = some (delta, k') ∧
      1 ≤ delta ∧ ∀ score : Nat, score < score + delta :=
  match take_turn_pos num_rolls opponent_score dice k h0 h10 hop hd with
  | ⟨v, k', hv, h1⟩ => ⟨v, k', hv, h1, fun score => by omega⟩

/-- Witness for C9 at `num_rolls = 3`, `opponent_score = 5`, constant dice 2. -/
theorem C9_take_turn_at_least_one_witness :
    ∃ delta k', take_turn 3 5 (fun _ => 2) 0 = some (delta, k') ∧
      1 ≤ delta ∧ ∀ score : Nat, score < score + delta :=
  C9_take_turn_at_least_one 3 5 (fun _ => 2) 0 (by decide) (by decide) (by decide)
    (fun _ => Nat.le_succ 1)

lemma validStrategy_const (n : Int) (h0 : 0 ≤ n) (h10 : n ≤ 10) :
    ValidStrategy (fun _ _ => n) :=
  fun _ _ => ⟨h0, h10⟩

lemma positiveDice_const (v : Nat) (hv : 1 ≤ v) : PositiveDice (fun _ => v) :=
  fun _ => hv

lemma finishTurn_cases (st : PlayState) (delta k4 k6 : Nat) :
    ((finishTurn st delta k4 k6).score, (finishTurn st delta k4 k6).opponent_score) =
        (st.score + delta, st.opponent_score) ∨
      ((finishTurn st delta k4 k6).score, (finishTurn st delta k4 k6).opponent_score) =
        (st.opponent_score, st.score + delta) := by
  simp only [finishTurn]
  split
  · left; rfl
  · right; rfl

lemma finishTurn_sum (st : PlayState) (delta k4 k6 : Nat) :
    (finishTurn st delta k4 k6).score + (finishTurn st delta k4 k6).opponent_score =
      st.score + delta + st.opponent_score := by
  rcases finishTurn_cases st delta k4 k6 with h | h <;>
    · rw [Prod.mk.injEq] at h
      omega

lemma playStep_inv (strategy0 strategy1 : Strategy) (d4 d6 : Dice) (st st' : PlayState)
    (h : playStep strategy0 strategy1 d4 d6 st = some st') :
    ∃ delta k4 k6, st' = finishTurn st delta k4 k6 := by
  simp only [playStep] at h
  split at h
  · split at h
    · exact Option.noConfusion h
    · exact ⟨_, _, _, (Option.some.inj h).symm⟩
  · split at h
    · exact Option.noConfusion h
    · exact ⟨_, _, _, (Option.some.inj h).symm⟩

lemma playStep_some (strategy0 strategy1 : Strategy) (d4 d6 : Dice)
    (hs0 : ValidStrategy strategy0) (hs1 : ValidStrategy strategy1)
    (h4 : PositiveDice d4) (h6 : PositiveDice d6) (st : PlayState)
    (hop : st.opponent_score < 100) :
    ∃ st', playStep strategy0 strategy1 d4 d6 st = some st' ∧
      st.score + st.opponent_score + 1 ≤ st'.score + st'.opponent_score := by
  have hval : 0 ≤ (if st.who = 0 then strategy0 else strategy1) st.score st.opponent_score ∧
      (if st.who = 0 then strategy0 else strategy1) st.score st.opponent_score ≤ 10 := by
    split
    · exact hs0 _ _
    · exact hs1 _ _
  simp only [playStep]
  cases hsel : select_dice st.score st.opponent_score with
  | four_sided =>
      obtain ⟨v, k', htt, hv⟩ :=
        take_turn_pos _ st.opponent_score d4 st.k4 hval.1 hval.2 hop h4
      rw [htt]
      refine ⟨_, rfl, ?_⟩
      have := finishTurn_sum st v k' st.k6
      omega
  | six_sided =>
      obtain ⟨v, k', htt, hv⟩ :=
        take_turn_pos _ st.opponent_score d6 st.k6 hval.1 hval.2 hop h6
      rw [htt]
      refine ⟨_, rfl, ?_⟩
      have := finishTurn_sum st v st.k4 k'
      omega

lemma playLoop_some (strategy0 strategy1 : Strategy) (goal : Nat) (d4 d6 : Dice)
    (hs0 : ValidStrategy strategy0) (hs1 : ValidStrategy strategy1)
    (h4 : PositiveDice d4) (h6 : PositiveDice d6) (hgoal : goal ≤ 100) :
    ∀ (fuel : Nat) (st : PlayState), 2 * goal ≤ fuel + st.score + st.opponent_score →
      ∃ st', playLoop strategy0 strategy1 goal d4 d6 fuel st = some st' ∧
        goal ≤ max st'.score st'.opponent_score := by
  intro fuel
  induction fuel with
  | zero =>
      intro st hge
      have h1 : st.score ≤ max st.score st.opponent_score := Nat.le_max_left _ _
      have h2 : st.opponent_score ≤ max st.score st.opponent_score := Nat.le_max_right _ _
      refine ⟨st, ?_, by omega⟩
      simp only [playLoop]
      rw [if_neg (by omega)]
  | succ fuel ih =>
      intro st hge
      by_cases hlt : max st.score st.opponent_score < goal
      · have h2 : st.opponent_score ≤ max st.score st.opponent_score := Nat.le_max_right _ _
        have hop : st.opponent_score < 100 := by omega
        obtain ⟨st', hstep, hsum⟩ :=
          playStep_some strategy0 strategy1 d4 d6 hs0 hs1 h4 h6 st hop
        obtain ⟨st'', hloop, hmax⟩ := ih st' (by omega)
        refine ⟨st'', ?_, hmax⟩
        simp only [playLoop]
        rw [if_pos hlt, hstep]
        exact hloop
      · refine ⟨st, ?_, by omega⟩
        simp only [playLoop]
        rw [if_neg hlt]

lemma playLoop_stuck (strategy0 strategy1 : Strategy) (goal : Nat) (d4 d6 : Dice)
    (st : PlayState) (hlt : max st.score st.opponent_score < goal)
    (hstep : playStep strategy0 strategy1 d4 d6 st = none) :
    ∀ fuel, playLoop strategy0 strategy1 goal d4 d6 fuel st = none := by
  intro fuel
  cases fuel with
  | zero =>
      simp only [playLoop]
      rw [if_pos hlt]
  | succ fuel =>
      simp only [playLoop]
      rw [if_pos hlt, hstep]

lemma cex_play_none :
    ∀ fuel, play cexS0 cexS1 101 cexD4 cexD6 fuel = none := by
  have hstep0 : playStep cexS0 cexS1 cexD4 cexD6 stepInput = some cexSt1 := by decide
  have hstep1 : playStep cexS0 cexS1 cexD4 cexD6 cexSt1 = none := by decide
  intro fuel
  cases fuel with
  | zero => decide
  | succ fuel =>
      have h1 : playLoop cexS0 cexS1 101 cexD4 cexD6 (fuel + 1) stepInput =
          playLoop cexS0 cexS1 101 cexD4 cexD6 fuel cexSt1 := by
        simp only [playLoop]
        rw [if_pos (by decide), hstep0]
      have h2 : playLoop cexS0 cexS1 101 cexD4 cexD6 fuel cexSt1 = none :=
        playLoop_stuck cexS0 cexS1 101 cexD4 cexD6 cexSt1 (by decide) hstep1 fuel
      show (playFrom cexS0 cexS1 101 cexD4 cexD6 0 0 (fuel + 1)).map (fun r => r.1) = none
      rw [playFrom, show
        ({ who := 0, score := 0, opponent_score := 0, k4 := 0, k6 := 0 } : PlayState) =
          stepInput from rfl, h1, h2]
      rfl

/-- C2 is false as stated: the claim quantifies over the goal, but
`take_turn` hard-codes the assertion `opponent_score < 100`, so with goal
101, strategies rolling 2 and 0 dice (both in [0,10]) and dice sources
always showing 50 resp. 2 (positive), player 0 scores exactly 100 on the
first turn, the loop continues (100 < 101), and player 1's `take_turn`
aborts: `play` returns `none` for every fuel, i.e. it never terminates
normally with final scores. -/
theorem C2_counterexample_goal_above_100 :
    ¬ (∀ (strategy0 strategy1 : Strategy) (goal : Nat) (d4 d6 : Dice),
        ValidStrategy strategy0 → ValidStrategy strategy1 →
        PositiveDice d4 → PositiveDice d6 →
        ∃ (fuel : Nat) (p : Nat × Nat),
          play strategy0 strategy1 goal d4 d6 fuel = some p ∧ goal ≤ max p.1 p.2) := by
  intro h
  obtain ⟨fuel, p, hp, _⟩ := h cexS0 cexS1 101 cexD4 cexD6
    (validStrategy_const 2 (by decide) (by decide))
    (validStrategy_const 0 (by decide) (by decide))
    (positiveDice_const 50 (by decide))
    (positiveDice_const 2 (by decide))
  rw [cex_play_none fuel] at hp
  exact Option.noConfusion hp

/-- C2 (amended): for strategies always returning an integer in [0,10],
dice sources returning only positive integers, and a goal of at most 100
(so that the hard-coded `opponent_score < 100` assertion of `take_turn`
cannot fire while the loop guard holds), `play` terminates — fuel `2*goal`
suffices, since the loop guard `max score opponent_score < goal` is
evaluated at the top of each iteration and every iteration adds at least 1
to the score total — and the final scores satisfy `goal ≤ max`. -/
theorem C2_play_terminates (strategy0 strategy1 : Strategy) (goal : Nat) (d4 d6 : Dice)
    (hs0 : ValidStrategy strategy0) (hs1 : ValidStrategy strategy1)
    (h4 : PositiveDice d4) (h6 : PositiveDice d6) (hgoal : goal ≤ 100) :
    ∃ p, play strategy0 strategy1 goal d4 d6 (2 * goal) = some p ∧
      goal ≤ max p.1 p.2 := by
  obtain ⟨st', hloop, hmax⟩ :=
    playLoop_some strategy0 strategy1 goal d4 d6 hs0 hs1 h4 h6 hgoal (2 * goal)
      { who := 0, score := 0, opponent_score := 0, k4 := 0, k6 := 0 } (by simp)
  refine ⟨playResult st', ?_, ?_⟩
  · rw [play, playFrom, hloop]
    rfl
  · unfold playResult
    split
    · exact hmax
    · rw [Nat.max_comm]
      exact hmax

/-- Witness for the amended C2 at goal 1 with free-bacon strategies. -/
theorem C2_play_terminates_witness :
    ∃ p, play (fun _ _ => 0) (fun _ _ => 0) 1 (fun _ => 6) (fun _ => 6) (2 * 1) = some p ∧
      1 ≤ max p.1 p.2 :=
  C2_play_terminates (fun _ _ => 0) (fun _ _ => 0) 1 (fun _ => 6) (fun _ => 6)
    (validStrategy_const 0 (by decide) (by decide))
    (validStrategy_const 0 (by decide) (by decide))
    (positiveDice_const 6 (by decide)) (positiveDice_const 6 (by decide)) (by decide)

/-- C10: a successful `play` iteration only permutes the post-delta pair:
the pair after both swaps is either the post-delta pair or its transpose,
the score total is preserved, hence the maximum after the iteration equals
the maximum immediately after the turn delta was added, and a score that
has reached any goal cannot be lost from the pair. -/
theorem C10_swaps_preserve_scores (strategy0 strategy1 : Strategy) (d4 d6 : Dice)
    (st st' : PlayState) (h : playStep strategy0 strategy1 d4 d6 st = some st') :
    ∃ delta : Nat,
      st.score + delta + st.opponent_score = st'.score + st'.opponent_score ∧
      ((st'.score, st'.opponent_score) = (st.score + delta, st.opponent_score) ∨
        (st'.score, st'.opponent_score) = (st.opponent_score, st.score + delta)) ∧
      max st'.score st'.opponent_score = max (st.score + delta) st.opponent_score ∧
      ∀ goal : Nat, goal ≤ max (st.score + delta) st.opponent_score →
        goal ≤ max st'.score st'.opponent_score := by
  obtain ⟨delta, k4, k6, rfl⟩ := playStep_inv strategy0 strategy1 d4 d6 st st' h
  refine ⟨delta, ?_, ?_, ?_, ?_⟩
  · rw [finishTurn_sum]
  · rcases finishTurn_cases st delta k4 k6 with hc | hc
    · exact Or.inl hc
    · exact Or.inr hc
  · rcases finishTurn_cases st delta k4 k6 with hc | hc
    · rw [Prod.mk.injEq] at hc
      rw [hc.1, hc.2]
    · rw [Prod.mk.injEq] at hc
      rw [hc.1, hc.2, Nat.max_comm]
  · intro goal hg
    rcases finishTurn_cases st delta k4 k6 with hc | hc
    · rw [Prod.mk.injEq] at hc
      rw [hc.1, hc.2]
      exact hg
    · rw [Prod.mk.injEq] at hc
      rw [hc.1, hc.2, Nat.max_comm]
      exact hg

/-- Witness for C10: one free-bacon turn from the initial state. -/
theorem C10_swaps_preserve_scores_witness :
    ∃ delta : Nat,
      stepInput.score + delta + stepInput.opponent_score =
          stepOutput.score + stepOutput.opponent_score ∧
      ((stepOutput.score, stepOutput.opponent_score) =
          (stepInput.score + delta, stepInput.opponent_score) ∨
        (stepOutput.score, stepOutput.opponent_score) =
          (stepInput.opponent_score, stepInput.score + delta)) ∧
      max stepOutput.score stepOutput.opponent_score =
        max (stepInput.score + delta) stepInput.opponent_score ∧
      ∀ goal : Nat, goal ≤ max (stepInput.score + delta) stepInput.opponent_score →
        goal ≤ max stepOutput.score stepOutput.opponent_score :=
  C10_swaps_preserve_scores (fun _ _ => 0) (fun _ _ => 0) (fun _ => 6) (fun _ => 6)
    stepInput stepOutput (by decide)

/-- C7: whenever a game completes, `winner` returns 0 exactly when player
0's final score is strictly greater than player 1's, and returns 1 in every
other case — in particular on equal final scores. -/
theorem C7_winner_strict (strategy0 strategy1 : Strategy) (d4 d6 : Dice)
    (k4 k6 fuel : Nat) (p : Nat × Nat) (ks : Nat × Nat)
    (h : playFrom strategy0 strategy1 GOAL_SCORE d4 d6 k4 k6 fuel = some (p, ks)) :
    ∃ w, winner strategy0 strategy1 d4 d6 k4 k6 fuel = some (w, ks) ∧
      (w = 0 ↔ p.2 < p.1) ∧ (¬ p.2 < p.1 → w = 1) ∧ (p.1 = p.2 → w = 1) := by
  rw [winner, h]
  refine ⟨if p.2 < p.1 then 0 else 1, rfl, ?_, ?_, ?_⟩
  · by_cases hc : p.2 < p.1 <;> simp [hc]
  · intro hc
    rw [if_neg hc]
  · intro hc
    rw [if_neg (by omega)]

/-- Witness for C7: the deterministic free-bacon game ends 91–103, so
`winner` returns 1. -/
theorem C7_winner_strict_witness :
    ∃ w, winner (fun _ _ => 0) (fun _ _ => 0) (fun _ => 6) (fun _ => 6) 0 0 200 =
        some (w, ((0 : Nat), (0 : Nat))) ∧
      (w = 0 ↔ (((91 : Nat), (103 : Nat)) : Nat × Nat).2 < ((91, 103) : Nat × Nat).1) ∧
      (¬ (((91 : Nat), (103 : Nat)) : Nat × Nat).2 < ((91, 103) : Nat × Nat).1 → w = 1) ∧
      ((((91 : Nat), (103 : Nat)) : Nat × Nat).1 = ((91, 103) : Nat × Nat).2 → w = 1) :=
  C7_winner_strict (fun _ _ => 0) (fun _ _ => 0) (fun _ => 6) (fun _ => 6) 0 0 200
    (91, 103) (0, 0) (by decide)

lemma specTurn_who (strategy0 strategy1 : Strategy) (d4 d6 : Dice) (a a' : SpecState)
    (h : specTurn strategy0 strategy1 d4 d6 a = some a') : a'.who = other a.who := by
  simp only [specTurn] at h
  split at h
  · exact Option.noConfusion h
  · rw [← Option.some.inj h]

lemma playStep_stOf (strategy0 strategy1 : Strategy) (d4 d6 : Dice) (a : SpecState)
    (hwho : a.who = 0 ∨ a.who = 1) :
    playStep strategy0 strategy1 d4 d6 (stOf a) =
      (specTurn strategy0 strategy1 d4 d6 a).map stOf := by
  rcases hwho with hw | hw
  · simp only [playStep, specTurn, stOf, hw, if_true]
    cases hsel : select_dice a.score0 a.score1 with
    | four_sided =>
        cases htt : take_turn (strategy0 a.score0 a.score1) a.score1 d4 a.k4 with
        | none => simp
        | some r =>
            cases r with
            | mk delta kp =>
                simp only [Option.map_some']
                simp only [finishTurn, stOf, other, hw, if_true]
                rfl
    | six_sided =>
        cases htt : take_turn (strategy0 a.score0 a.score1) a.score1 d6 a.k6 with
        | none => simp
        | some r =>
            cases r with
            | mk delta kp =>
                simp only [Option.map_some']
                simp only [finishTurn, stOf, other, hw, if_true]
                rfl
  · have hne : ¬ a.who = 0 := by omega
    simp only [playStep, specTurn, stOf, hw]
    simp only [show ((1 : Nat) = 0) = False by simp, if_false]
    cases hsel : select_dice a.score1 a.score0 with
    | four_sided =>
        cases htt : take_turn (strategy1 a.score1 a.score0) a.score0 d4 a.k4 with
        | none => simp
        | some r =>
            cases r with
            | mk delta kp =>
                simp only [Option.map_some']
                simp only [finishTurn, stOf, other, hw]
                rfl
    | six_sided =>
        cases htt : take_turn (strategy1 a.score1 a.score0) a.score0 d6 a.k6 with
        | none => simp
        | some r =>
            cases r with
            | mk delta kp =>
                simp only [Option.map_some']
                simp only [finishTurn, stOf, other, hw]
                rfl

lemma stOf_max (a : SpecState) (hwho : a.who = 0 ∨ a.who = 1) :
    max (stOf a).score (stOf a).opponent_score = max a.score0 a.score1 := by
  rcases hwho with hw | hw <;> simp [stOf, hw, Nat.max_comm]

lemma playLoop_stOf (strategy0 strategy1 : Strategy) (goal : Nat) (d4 d6 : Dice) :
    ∀ (fuel : Nat) (a : SpecState), (a.who = 0 ∨ a.who = 1) →
      playLoop strategy0 strategy1 goal d4 d6 fuel (stOf a) =
        (specLoop strategy0 strategy1 goal d4 d6 fuel a).map stOf := by
  intro fuel
  induction fuel with
  | zero =>
      intro a hwho
      simp only [playLoop, specLoop, stOf_max a hwho]
      split
      · rfl
      · rfl
  | succ fuel ih =>
      intro a hwho
      simp only [playLoop, specLoop, stOf_max a hwho]
      by_cases hg : max a.score0 a.score1 < goal
      · rw [if_pos hg, if_pos hg, playStep_stOf strategy0 strategy1 d4 d6 a hwho]
        cases hstep : specTurn strategy0 strategy1 d4 d6 a with
        | none => rfl
        | some a' =>
            have hwho' : a'.who = 0 ∨ a'.who = 1 := by
              have hother := specTurn_who strategy0 strategy1 d4 d6 a a' hstep
              rcases hwho with h | h <;> rw [hother, h] <;> simp [other]
            exact ih a' hwho'
      · rw [if_neg hg, if_neg hg]
        rfl

lemma specLoop_who (strategy0 strategy1 : Strategy) (goal : Nat) (d4 d6 : Dice) :
    ∀ (fuel : Nat) (a a' : SpecState), (a.who = 0 ∨ a.who = 1) →
      specLoop strategy0 strategy1 goal d4 d6 fuel a = some a' →
      a'.who = 0 ∨ a'.who = 1 := by
  intro fuel
  induction fuel with
  | zero =>
      intro a a' hwho h
      simp only [specLoop] at h
      split at h
      · exact Option.noConfusion h
      · rw [← Option.some.inj h]
        exact hwho
  | succ fuel ih =>
      intro a a' hwho h
      simp only [specLoop] at h
      split at h
      · cases hstep : specTurn strategy0 strategy1 d4 d6 a with
        | none => rw [hstep] at h; exact Option.noConfusion h
        | some a'' =>
            rw [hstep] at h
            have hwho'' : a''.who = 0 ∨ a''.who = 1 := by
              have hother := specTurn_who strategy0 strategy1 d4 d6 a a'' hstep
              rcases hwho with hx | hx <;> rw [hother, hx] <;> simp [other]
            exact ih a'' a' hwho'' h
      · rw [← Option.some.inj h]
        exact hwho

/-- C1: `play` computes exactly the game described by the spec: each
iteration, in order, asks the active player's strategy for a roll count on
the pre-turn (score, opponent_score) pair, selects the dice variant by
`select_dice` on the same pre-turn scores, adds the `take_turn` delta to the
current player's score, applies the conditional doubling swap, then rotates
the pair and flips `who` — and the returned pair is always (player 0's final
score, player 1's final score), reconstructed from the rotating pair and the
final `who`, regardless of which player reached the goal.  Formally, `play`
coincides with the non-rotating per-player state machine `specPlay`, whose
step `specTurn` performs exactly the listed phases and whose result is
literally (score0, score1). -/
theorem C1_play_matches_spec_machine (strategy0 strategy1 : Strategy) (goal : Nat)
    (d4 d6 : Dice) (fuel : Nat) :
    play strategy0 strategy1 goal d4 d6 fuel =
      specPlay strategy0 strategy1 goal d4 d6 fuel := by
  have hinit : ({ who := 0, score := 0, opponent_score := 0, k4 := 0, k6 := 0 } : PlayState) =
      stOf { score0 := 0, score1 := 0, who := 0, k4 := 0, k6 := 0 } := rfl
  rw [play, playFrom, specPlay, hinit,
    playLoop_stOf strategy0 strategy1 goal d4 d6 fuel _ (Or.inl rfl)]
  cases hfin : specLoop strategy0 strategy1 goal d4 d6 fuel
      { score0 := 0, score1 := 0, who := 0, k4 := 0, k6 := 0 } with
  | none => rfl
  | some a' =>
      have hwho := specLoop_who strategy0 strategy1 goal d4 d6 fuel _ a'
        (Or.inl rfl) hfin
      simp only [Option.map_some']
      rcases hwho with h | h <;> simp [playResult, stOf, h]

lemma winner_some (strategy0 strategy1 : Strategy) (d4 d6 : Dice)
    (hs0 : ValidStrategy strategy0) (hs1 : ValidStrategy strategy1)
    (h4 : PositiveDice d4) (h6 : PositiveDice d6) (k4 k6 : Nat) :
    ∃ w k4' k6', winner strategy0 strategy1 d4 d6 k4 k6 (2 * GOAL_SCORE) =
      some (w, k4', k6') ∧ w ≤ 1 := by
  obtain ⟨st', hloop, _⟩ :=
    playLoop_some strategy0 strategy1 GOAL_SCORE d4 d6 hs0 hs1 h4 h6 (by decide)
      (2 * GOAL_SCORE)
      { who := 0, score := 0, opponent_score := 0, k4 := k4, k6 := k6 } (by simp)
  refine ⟨if (playResult st').2 < (playResult st').1 then 0 else 1, st'.k4, st'.k6,
    ?_, by split <;> omega⟩
  rw [winner, playFrom, hloop]
  rfl

lemma averagedWinnerGo_some (strategy0 strategy1 : Strategy) (d4 d6 : Dice)
    (hs0 : ValidStrategy strategy0) (hs1 : ValidStrategy strategy1)
    (h4 : PositiveDice d4) (h6 : PositiveDice d6) :
    ∀ (n k4 k6 total : Nat),
      ∃ total' k4' k6',
        averagedWinnerGo strategy0 strategy1 d4 d6 (2 * GOAL_SCORE) n k4 k6 total =
          some (total', k4', k6') ∧ total ≤ total' ∧ total' ≤ total + n := by
  intro n
  induction n with
  | zero =>
      intro k4 k6 total
      exact ⟨total, k4, k6, rfl, le_refl total, by omega⟩
  | succ n ih =>
      intro k4 k6 total
      obtain ⟨w, k4', k6', hw, hw1⟩ :=
        winner_some strategy0 strategy1 d4 d6 hs0 hs1 h4 h6 k4 k6
      obtain ⟨total', k4'', k6'', hrec, hlo, hhi⟩ := ih k4' k6' (total + w)
      refine ⟨total', k4'', k6'', ?_, by omega, by omega⟩
      rw [averagedWinnerGo, hw]
      exact hrec

lemma make_averaged_winner_bounds (strategy0 strategy1 : Strategy) (d4 d6 : Dice)
    (hs0 : ValidStrategy strategy0) (hs1 : ValidStrategy strategy1)
    (h4 : PositiveDice d4) (h6 : PositiveDice d6) (k4 k6 : Nat) :
    ∃ r k4' k6',
      make_averaged_winner 1000 strategy0 strategy1 d4 d6 k4 k6 (2 * GOAL_SCORE) =
        some (r, k4', k6') ∧ 0 ≤ r ∧ r ≤ 1 := by
  obtain ⟨total, k4', k6', hgo, hlo, hhi⟩ :=
    averagedWinnerGo_some strategy0 strategy1 d4 d6 hs0 hs1 h4 h6 1000 k4 k6 0
  refine ⟨(total : ℚ) / 1000, k4', k6', ?_, ?_, ?_⟩
  · rw [make_averaged_winner, hgo]
    norm_num
  · positivity
  · rw [div_le_one (by norm_num)]
    have : (total : ℚ) ≤ (1000 : ℚ) := by
      exact_mod_cast (by omega : total ≤ 1000)
    linarith

/-- C5: with valid strategies and positive dice, `average_win_rate` is the
unweighted mean of `1 − r0` and `r1`, where `r0` is the 1000-game average of
`winner(strategy, baseline)` and `r1` the 1000-game average of
`winner(baseline, strategy)` (the player-0 estimate uses `1 − rate`, the
player-1 estimate uses the rate directly), and the returned value lies
in [0, 1]. -/
theorem C5_average_win_rate_mean_and_range (strategy baseline : Strategy)
    (d4 d6 : Dice) (hs : ValidStrategy strategy) (hb : ValidStrategy baseline)
    (h4 : PositiveDice d4) (h6 : PositiveDice d6) :
    ∃ r0 r1 k4 k6 k4' k6',
      make_averaged_winner 1000 strategy baseline d4 d6 0 0 (2 * GOAL_SCORE) =
          some (r0, k4, k6) ∧
      make_averaged_winner 1000 baseline strategy d4 d6 k4 k6 (2 * GOAL_SCORE) =
          some (r1, k4', k6') ∧
      average_win_rate strategy baseline d4 d6 (2 * GOAL_SCORE) =
          some (((1 - r0) + r1) / 2) ∧
      0 ≤ r0 ∧ r0 ≤ 1 ∧ 0 ≤ r1 ∧ r1 ≤ 1 ∧
      0 ≤ ((1 - r0) + r1) / 2 ∧ ((1 - r0) + r1) / 2 ≤ 1 := by
  obtain ⟨r0, k4, k6, h0, h0lo, h0hi⟩ :=
    make_averaged_winner_bounds strategy baseline d4 d6 hs hb h4 h6 0 0
  obtain ⟨r1, k4', k6', h1, h1lo, h1hi⟩ :=
    make_averaged_winner_bounds baseline strategy d4 d6 hb hs h4 h6 k4 k6
  refine ⟨r0, r1, k4, k6, k4', k6', h0, h1, ?_, h0lo, h0hi, h1lo, h1hi,
    by linarith, by linarith⟩
  simp only [average_win_rate, h0, h1]

/-- Witness for C5 with constant strategies 5 and 4 and constant dice 3. -/
theorem C5_average_win_rate_mean_and_range_witness :
    ∃ r0 r1 k4 k6 k4' k6',
      make_averaged_winner 1000 (fun _ _ => 5) (fun _ _ => 4) (fun _ => 3) (fun _ => 3)
          0 0 (2 * GOAL_SCORE) = some (r0, k4, k6) ∧
      make_averaged_winner 1000 (fun _ _ => 4) (fun _ _ => 5) (fun _ => 3) (fun _ => 3)
          k4 k6 (2 * GOAL_SCORE) = some (r1, k4', k6') ∧
      average_win_rate (fun _ _ => 5) (fun _ _ => 4) (fun _ => 3) (fun _ => 3)
          (2 * GOAL_SCORE) = some (((1 - r0) + r1) / 2) ∧
      0 ≤ r0 ∧ r0 ≤ 1 ∧ 0 ≤ r1 ∧ r1 ≤ 1 ∧
      0 ≤ ((1 - r0) + r1) / 2 ∧ ((1 - r0) + r1) / 2 ≤ 1 :=
  C5_average_win_rate_mean_and_range (fun _ _ => 5) (fun _ _ => 4) (fun _ => 3)
    (fun _ => 3) (validStrategy_const 5 (by decide) (by decide))
    (validStrategy_const 4 (by decide) (by decide))
    (positiveDice_const 3 (by decide)) (positiveDice_const 3 (by decide))

lemma roll_dice_natCast (roll : Nat) (h : 1 ≤ roll) (dice : Dice) (k : Nat) :
    roll_dice (roll : Int) dice k = some (rollDiceGo dice roll k 0 false) := by
  unfold roll_dice
  rw [if_pos (by exact_mod_cast h)]
  simp

lemma rollDiceGo_pos (dice : Dice) (hd : PositiveDice dice) (n k : Nat) (h : 1 ≤ n) :
    1 ≤ (rollDiceGo dice n k 0 false).1 := by
  rw [rollDiceGo_eq]
  have := diceSum_le dice hd n k
  simp only [Bool.false_or]
  split
  · exact le_refl 1
  · omega

lemma averagedRollDiceGo_some (dice : Dice) (hd : PositiveDice dice) (roll : Nat)
    (h : 1 ≤ roll) :
    ∀ (s k total : Nat), ∃ total' k',
      averagedRollDiceGo dice (roll : Int) s k total = some (total', k') ∧
      total + s ≤ total' := by
  intro s
  induction s with
  | zero =>
      intro k total
      exact ⟨total, k, rfl, by omega⟩
  | succ s ih =>
      intro k total
      obtain ⟨total', k', hrec, hge⟩ :=
        ih (rollDiceGo dice roll k 0 false).2 (total + (rollDiceGo dice roll k 0 false).1)
      have hpos := rollDiceGo_pos dice hd roll k h
      refine ⟨total', k', ?_, by omega⟩
      rw [averagedRollDiceGo, roll_dice_natCast roll h dice k]
      exact hrec

lemma make_averaged_roll_dice_some (dice : Dice) (hd : PositiveDice dice) (roll : Nat)
    (h : 1 ≤ roll) (k : Nat) :
    ∃ ave k', make_averaged_roll_dice 1000 (roll : Int) dice k = some (ave, k') ∧
      1 ≤ ave := by
  obtain ⟨total, k', hgo, hge⟩ := averagedRollDiceGo_some dice hd roll h 1000 k 0
  refine ⟨(total : ℚ) / 1000, k', ?_, ?_⟩
  · rw [make_averaged_roll_dice, hgo]
    norm_num
  · rw [le_div_iff₀ (by norm_num)]
    have : (1000 : ℚ) ≤ (total : ℚ) := by
      exact_mod_cast (by omega : 1000 ≤ total)
    linarith

lemma msnrGo_spec (dice : Dice) (hd : PositiveDice dice) :
    ∀ (cnt : Nat), ∀ (roll k maxR : Nat) (best : ℚ), 1 ≤ roll →
      ∃ r, msnrGo dice cnt roll k maxR best = some r ∧
        ((r = maxR ∧
            ∀ (i : Nat) (a : ℚ), (msnrAveragesGo dice cnt roll k)[i]? = some a → a ≤ best) ∨
          (∃ (j : Nat) (a : ℚ), (msnrAveragesGo dice cnt roll k)[j]? = some a ∧ r = roll + j ∧
            best < a ∧
            (∀ (i : Nat) (b : ℚ), (msnrAveragesGo dice cnt roll k)[i]? = some b → b ≤ a) ∧
            (∀ (i : Nat) (b : ℚ), i < j → (msnrAveragesGo dice cnt roll k)[i]? = some b → b < a))) := by
  intro cnt
  induction cnt with
  | zero =>
      intro roll k maxR best hroll
      refine ⟨maxR, rfl, Or.inl ⟨rfl, ?_⟩⟩
      intro i a ha
      simp [msnrAveragesGo] at ha
  | succ cnt ih =>
      intro roll k maxR best hroll
      obtain ⟨ave, k', hmk, have1⟩ := make_averaged_roll_dice_some dice hd roll hroll k
      have hlist : msnrAveragesGo dice (cnt + 1) roll k =
          ave :: msnrAveragesGo dice cnt (roll + 1) k' := by
        rw [msnrAveragesGo, hmk]
      by_cases hbc : best < ave
      · obtain ⟨r, hrec, hdisj⟩ := ih (roll + 1) k' roll ave (by omega)
        refine ⟨r, ?_, ?_⟩
        · simp only [msnrGo, hmk]
          rw [if_pos hbc]
          exact hrec
        · rcases hdisj with ⟨hr, hall⟩ | ⟨j, a, hj, hr, hlt, hall, hstrict⟩
          · refine Or.inr ⟨0, ave, ?_, by omega, hbc, ?_, ?_⟩
            · rw [hlist]
              simp
            · intro i b hb
              rw [hlist] at hb
              cases i with
              | zero =>
                  have hba : ave = b := by simpa using hb
                  linarith
              | succ i =>
                  exact hall i b (by simpa using hb)
            · intro i b hi hb
              omega
          · refine Or.inr ⟨j + 1, a, ?_, by omega, ?_, ?_, ?_⟩
            · rw [hlist]
              simpa using hj
            · linarith
            · intro i b hb
              rw [hlist] at hb
              cases i with
              | zero =>
                  have hba : ave = b := by simpa using hb
                  linarith
              | succ i =>
                  exact hall i b (by simpa using hb)
            · intro i b hi hb
              rw [hlist] at hb
              cases i with
              | zero =>
                  have hba : ave = b := by simpa using hb
                  linarith
              | succ i =>
                  exact hstrict i b (by omega) (by simpa using hb)
      · obtain ⟨r, hrec, hdisj⟩ := ih (roll + 1) k' maxR best (by omega)
        refine ⟨r, ?_, ?_⟩
        · simp only [msnrGo, hmk]
          rw [if_neg hbc]
          exact hrec
        · push_neg at hbc
          rcases hdisj with ⟨hr, hall⟩ | ⟨j, a, hj, hr, hlt, hall, hstrict⟩
          · refine Or.inl ⟨hr, ?_⟩
            intro i b hb
            rw [hlist] at hb
            cases i with
            | zero =>
                have hba : ave = b := by simpa using hb
                linarith
            | succ i =>
                exact hall i b (by simpa using hb)
          · refine Or.inr ⟨j + 1, a, ?_, by omega, hlt, ?_, ?_⟩
            · rw [hlist]
              simpa using hj
            · intro i b hb
              rw [hlist] at hb
              cases i with
              | zero =>
                  have hba : ave = b := by simpa using hb
                  linarith
              | succ i =>
                  exact hall i b (by simpa using hb)
            · intro i b hi hb
              rw [hlist] at hb
              cases i with
              | zero =>
                  have hba : ave = b := by simpa using hb
                  linarith
              | succ i =>
                  exact hstrict i b (by omega) (by simpa using hb)

lemma msnrAveragesGo_length (dice : Dice) (hd : PositiveDice dice) :
    ∀ (cnt roll k : Nat), 1 ≤ roll → (msnrAveragesGo dice cnt roll k).length = cnt := by
  intro cnt
  induction cnt with
  | zero =>
      intro roll k h
      simp [msnrAveragesGo]
  | succ cnt ih =>
      intro roll k h
      obtain ⟨ave, k', hmk, _⟩ := make_averaged_roll_dice_some dice hd roll h k
      simp only [msnrAveragesGo, hmk]
      simp [ih (roll + 1) k' (by omega)]

/-- C6: with a dice source returning only positive integers,
`max_scoring_num_rolls` returns a roll count `r` in [1, 10] whose
1000-sample average (the `r`-th entry of the list of ten averages it
inspects, in order) is greatest, and every roll count below `r` has a
strictly smaller average — so ties keep the first (lowest) roll count,
because the comparison used is strict. -/
theorem C6_max_scoring_first_argmax (dice : Dice) (hd : PositiveDice dice) :
    ∃ (r : Nat) (aver : ℚ),
      max_scoring_num_rolls dice = some r ∧ 1 ≤ r ∧ r ≤ 10 ∧
      (msnrAverages dice)[r - 1]? = some aver ∧
      (∀ (i : Nat) (a : ℚ), (msnrAverages dice)[i]? = some a → a ≤ aver) ∧
      (∀ (i : Nat) (a : ℚ), i < r - 1 → (msnrAverages dice)[i]? = some a → a < aver) := by
  simp only [max_scoring_num_rolls, msnrAverages]
  obtain ⟨r, hrun, hdisj⟩ := msnrGo_spec dice hd 10 1 0 0 0 (by omega)
  rcases hdisj with ⟨hr, hall⟩ | ⟨j, a, hj, hr, hlt, hall, hstrict⟩
  · exfalso
    obtain ⟨ave, k', hmk, have1⟩ := make_averaged_roll_dice_some dice hd 1 (by omega) 0
    have h0 : (msnrAveragesGo dice 10 1 0)[0]? = some ave := by
      simp only [msnrAveragesGo, hmk]
      simp
    have := hall 0 ave h0
    linarith
  · have hlen : (msnrAveragesGo dice 10 1 0).length = 10 :=
      msnrAveragesGo_length dice hd 10 1 0 (by omega)
    have hjlt : j < (msnrAveragesGo dice 10 1 0).length := by
      by_contra hge
      rw [List.getElem?_eq_none (by omega)] at hj
      exact Option.noConfusion hj
    have hj' : r - 1 = j := by omega
    refine ⟨r, a, hrun, by omega, by omega, ?_, hall, ?_⟩
    · rw [hj']
      exact hj
    · intro i b hi hb
      exact hstrict i b (by omega) hb

/-- Witness for C6 with the constant dice source 3. -/
theorem C6_max_scoring_first_argmax_witness :
    ∃ (r : Nat) (aver : ℚ),
      max_scoring_num_rolls (fun _ => 3) = some r ∧ 1 ≤ r ∧ r ≤ 10 ∧
      (msnrAverages (fun _ => 3))[r - 1]? = some aver ∧
      (∀ (i : Nat) (a : ℚ), (msnrAverages (fun _ => 3))[i]? = some a → a ≤ aver) ∧
      (∀ (i : Nat) (a : ℚ), i < r - 1 →
        (msnrAverages (fun _ => 3))[i]? = some a → a < aver) :=
  C6_max_scoring_first_argmax (fun _ => 3) (positiveDice_const 3 (by decide))
